import Mathlib

/-!
# Verification of the `mimic` directory synchronizer

A shallow embedding, in Lean 4, of the core of the `mimic` one-directional
directory synchronizer, together with theorems checking the program's
natural-language specification against the code.

The embedding follows the Go sources:
* `internal/syncer/syncer.go` — data model (`EntryInfo`, `SyncAction`),
  the differencer `CompareStates`, the exclusion matcher `shouldExclude`
  and the per-entry logic of `ScanSource`'s walk callback;
* `internal/syncer/state.go` — `SyncState`, `SaveState`, `LoadState`,
  with the JSON wire format modelled at the level of a JSON value tree;
* `internal/fileops/fileops.go` — `CopyFile` / `copyFileBatching`
  (modelled as the pure data flow of the chunked pipeline) and
  `DeletePath`.

Go maps are modelled as association lists: the list order stands for the
(unspecified) iteration order of the Go map, and a list whose keys are
`Nodup` represents a map.  Machine integers (`int64`, `uint32`) are
modelled as `Int`/`Nat`; none of the verified operations can overflow
them on real inputs, and where a bound matters (`os.FileMode` is a
`uint32`) it appears as an explicit hypothesis.
-/

namespace Mimic

/-! ## Data model (`internal/syncer/syncer.go`) -/

/-- `EntryInfo` from `internal/syncer/syncer.go`: one filesystem object's
metadata at scan time.  `Mtime` is the modification timestamp in
nanoseconds since the epoch (Go `time.Time`); `Permissions` is the full
`os.FileMode` bits (a `uint32`). -/
structure EntryInfo where
  RelativePath : String
  Mtime : Int
  Size : Int
  IsDir : Bool
  Checksum : String
  Permissions : Nat
  deriving Repr, DecidableEq

/-- The zero value `EntryInfo{}` of the Go struct. -/
def emptyEntryInfo : EntryInfo :=
  { RelativePath := "", Mtime := 0, Size := 0, IsDir := false
    Checksum := "", Permissions := 0 }

/-- `ActionNone = 0x00` -/
def ActionNone : Nat := 0x00
/-- `ActionCreate = 0x01` -/
def ActionCreate : Nat := 0x01
/-- `ActionUpdate = 0x02` -/
def ActionUpdate : Nat := 0x02
/-- `ActionDelete = 0x03` -/
def ActionDelete : Nat := 0x03

/-- `SyncAction` from `internal/syncer/syncer.go`.  The Go field `Type`
is named `type_` here (`Type` is reserved in Lean). -/
structure SyncAction where
  type_ : Nat
  RelativePath : String
  SourceInfo : EntryInfo
  deriving Repr, DecidableEq

/-- A Go `map[string]EntryInfo`, modelled as an association list.  The
list order models the map's (unspecified) iteration order; a list with
`Nodup` keys represents a map. -/
abbrev Snapshot := List (String × EntryInfo)

/-- Key lookup in an association list (Go map indexing `m[path]`). -/
def assocFind? {α : Type} (m : List (String × α)) (p : String) : Option α :=
  match m with
  | [] => none
  | (k, v) :: rest => if k = p then some v else assocFind? rest p

/-- The keys of an association list. -/
def assocKeys {α : Type} (m : List (String × α)) : List String :=
  m.map Prod.fst

/-- Go map assignment `m[k] = v`: replace the binding if the key is
present, otherwise add it. -/
def assocInsert {α : Type} (m : List (String × α)) (k : String) (v : α) :
    List (String × α) :=
  if (assocFind? m k).isSome then
    m.map (fun pe => if pe.1 = k then (k, v) else pe)
  else
    m ++ [(k, v)]

/-! ## The differencer `CompareStates` (`syncer.go` lines 277–319) -/

/-- `timeDiffThreshold = 1 * time.Second`, in nanoseconds. -/
def timeDiffThreshold : Int := 1000000000

/-- The body of `CompareStates`'s first loop for one source entry:
a create action for a path absent from the loaded state, otherwise the
none/update decision from the timestamp difference and the sizes. -/
def actionForSourceEntry (loadedStateEntries : Snapshot)
    (path : String) (source : EntryInfo) : SyncAction :=
  match assocFind? loadedStateEntries path with
  | none =>
      { type_ := ActionCreate, RelativePath := path, SourceInfo := source }
  | some entry =>
      let timeDiff := source.Mtime - entry.Mtime
      if (timeDiff < timeDiffThreshold ∧ -timeDiffThreshold < timeDiff)
          ∧ source.Size = entry.Size then
        { type_ := ActionNone, RelativePath := path, SourceInfo := emptyEntryInfo }
      else
        { type_ := ActionUpdate, RelativePath := path, SourceInfo := source }

/-- `CompareStates` from `internal/syncer/syncer.go`: the first loop walks
the source snapshot emitting create/none/update actions, the second walks
the loaded state emitting a delete action for every path no longer in the
source.  The association lists' order stands for the Go maps' iteration
order. -/
def CompareStates (sourceScan loadedStateEntries : Snapshot) : List SyncAction :=
  (sourceScan.map fun pe => actionForSourceEntry loadedStateEntries pe.1 pe.2)
    ++ ((loadedStateEntries.filter
          fun pe => (assocFind? sourceScan pe.1).isNone).map
        fun pe =>
          { type_ := ActionDelete, RelativePath := pe.1
            SourceInfo := emptyEntryInfo })

/-- The action the specification's comparison rule prescribes for a path
(`none` when the path is in neither snapshot).  Written from the spec's
words: create for a path only in the current scan, delete for a path only
in the previous entries, and for a path in both a none action exactly when
the absolute timestamp difference is strictly below one second and the
sizes are equal, otherwise an update carrying the current entry. -/
def specActionAt (sourceScan loadedStateEntries : Snapshot) (p : String) :
    Option SyncAction :=
  match assocFind? sourceScan p, assocFind? loadedStateEntries p with
  | some s, none =>
      some { type_ := ActionCreate, RelativePath := p, SourceInfo := s }
  | none, some _ =>
      some { type_ := ActionDelete, RelativePath := p, SourceInfo := emptyEntryInfo }
  | some s, some e =>
      if (s.Mtime - e.Mtime).natAbs < 1000000000 ∧ s.Size = e.Size then
        some { type_ := ActionNone, RelativePath := p, SourceInfo := emptyEntryInfo }
      else
        some { type_ := ActionUpdate, RelativePath := p, SourceInfo := s }
  | none, none => none

/-! ### Association-list lemmas -/

theorem assocFind?_eq_none {α : Type} {m : List (String × α)} {p : String} :
    assocFind? m p = none ↔ p ∉ assocKeys m := by
  induction m with
  | nil => simp [assocFind?, assocKeys]
  | cons pe rest ih =>
    obtain ⟨k, v⟩ := pe
    by_cases h : k = p
    · subst h
      simp [assocFind?, assocKeys]
    · have h' : p ≠ k := fun hh => h hh.symm
      simp [assocFind?, assocKeys, h, h', ih]

theorem assocFind?_filter {α : Type} (pred : String × α → Bool)
    {m : List (String × α)} (p : String) (hnd : (assocKeys m).Nodup) :
    assocFind? (m.filter pred) p =
      match assocFind? m p with
      | some v => if pred (p, v) then some v else none
      | none => none := by
  induction m with
  | nil => simp [assocFind?]
  | cons pe rest ih =>
    obtain ⟨k, v⟩ := pe
    simp only [assocKeys, List.map_cons, List.nodup_cons] at hnd
    by_cases hk : k = p
    · subst hk
      have hrest : assocFind? rest k = none :=
        assocFind?_eq_none.mpr (by simpa [assocKeys] using hnd.1)
      have hrestF : assocFind? (rest.filter pred) k = none := by
        refine assocFind?_eq_none.mpr fun hmem => ?_
        have : k ∈ assocKeys rest := by
          simp only [assocKeys] at hmem ⊢
          obtain ⟨q, hq, rfl⟩ := List.mem_map.mp hmem
          exact List.mem_map_of_mem _ (List.mem_of_mem_filter hq)
        exact (assocFind?_eq_none.mp hrest) this
      by_cases hp : pred (k, v) <;>
        simp [List.filter_cons, hp, assocFind?, hrestF]
    · by_cases hp : pred (k, v) <;>
        simp [List.filter_cons, hp, assocFind?, hk, ih hnd.2]

/-! ### C1: one action per path, of the specified kind -/

/-- Helper for C1: filtering the per-source-entry actions down to one path
returns exactly the action built from that path's binding, or nothing when
the path is absent; `g` is the per-entry action constructor, which always
stamps the entry's own path on the action it builds. -/
theorem filter_map_actions {α : Type} (g : String → α → SyncAction)
    (hg : ∀ k v, (g k v).RelativePath = k)
    (src : List (String × α)) (p : String) (hnd : (assocKeys src).Nodup) :
    ((src.map fun pe => g pe.1 pe.2).filter fun a => a.RelativePath == p) =
      match assocFind? src p with
      | none => []
      | some v => [g p v] := by
  induction src with
  | nil => simp [assocFind?]
  | cons pe rest ih =>
    obtain ⟨k, v⟩ := pe
    simp only [assocKeys, List.map_cons, List.nodup_cons] at hnd
    by_cases hk : k = p
    · subst hk
      have hrest : assocFind? rest k = none :=
        assocFind?_eq_none.mpr (by simpa [assocKeys] using hnd.1)
      have hrestFilter :
          ((rest.map fun pe => g pe.1 pe.2).filter
            fun a => a.RelativePath == k) = [] := by
        rw [ih hnd.2, hrest]
      simp [List.filter_cons, hg, hrestFilter, assocFind?]
    · have : ((g k v).RelativePath == p) = false := by
        simp [hg, hk]
      simp [List.filter_cons, this, assocFind?, hk, ih hnd.2]
theorem actionForSourceEntry_path (loaded : Snapshot) (k : String)
    (v : EntryInfo) : (actionForSourceEntry loaded k v).RelativePath = k := by
  unfold actionForSourceEntry
  cases assocFind? loaded k with
  | none => rfl
  | some e =>
    dsimp only
    split <;> rfl

/-- C1.  For every pair of snapshots whose keys are without duplicates
(as a Go map's always are), `CompareStates` emits, for every path, exactly
the actions the specification's rule prescribes: one create carrying the
current entry for a path only in the current scan, one delete for a path
only in the previous entries, for a path in both one none action exactly
when the absolute timestamp difference is strictly below one second and
the sizes are equal and otherwise one update carrying the current entry,
and no action at all for a path in neither. -/
theorem CompareStates_one_action_per_path (src loaded : Snapshot) (p : String)
    (hs : (assocKeys src).Nodup) (hl : (assocKeys loaded).Nodup) :
    ((CompareStates src loaded).filter fun a => a.RelativePath == p) =
      (specActionAt src loaded p).toList := by
  have hdelKeys :
      (assocKeys (loaded.filter
        fun pe => (assocFind? src pe.1).isNone)).Nodup := by
    have hsub :
        List.Sublist
          ((loaded.filter fun pe => (assocFind? src pe.1).isNone).map Prod.fst)
          (loaded.map Prod.fst) :=
      (List.filter_sublist _).map _
    exact hl.sublist hsub
  unfold CompareStates
  rw [List.filter_append]
  rw [filter_map_actions (fun k v => actionForSourceEntry loaded k v)
        (fun k v => actionForSourceEntry_path loaded k v) src p hs]
  rw [filter_map_actions
        (fun k _ => { type_ := ActionDelete, RelativePath := k
                      SourceInfo := emptyEntryInfo })
        (fun _ _ => rfl) _ p hdelKeys]
  rw [assocFind?_filter _ p hl]
  cases hsrc : assocFind? src p with
  | none =>
    cases hld : assocFind? loaded p with
    | none => simp [specActionAt, hsrc, hld]
    | some e => simp [specActionAt, hsrc, hld]
  | some s =>
    cases hld : assocFind? loaded p with
    | none =>
      simp [specActionAt, hsrc, hld, actionForSourceEntry]
    | some e =>
      simp only [hsrc, hld, Option.isNone_some, if_false,
        Bool.false_eq_true, List.append_nil]
      unfold actionForSourceEntry specActionAt
      rw [hld, hsrc]
      dsimp only
      by_cases hc :
          (s.Mtime - e.Mtime).natAbs < 1000000000 ∧ s.Size = e.Size
      · have hc' :
            ((s.Mtime - e.Mtime < timeDiffThreshold ∧
              -timeDiffThreshold < s.Mtime - e.Mtime) ∧
              s.Size = e.Size) := by
          refine ⟨?_, hc.2⟩
          have := hc.1
          unfold timeDiffThreshold
          omega
        rw [if_pos hc', if_pos hc]
        rfl
      · have hc' :
            ¬ ((s.Mtime - e.Mtime < timeDiffThreshold ∧
              -timeDiffThreshold < s.Mtime - e.Mtime) ∧
              s.Size = e.Size) := by
          intro h
          apply hc
          refine ⟨?_, h.2⟩
          have := h.1
          unfold timeDiffThreshold at this
          omega
        rw [if_neg hc', if_neg hc]
        rfl
/-- A sample current-scan entry: `a.txt`, modified 0.5 s after the stored
entry, same size. -/
def sampleSrcEntry : EntryInfo :=
  { RelativePath := "a.txt", Mtime := 500000000, Size := 100, IsDir := false
    Checksum := "11aa", Permissions := 420 }

/-- A sample previously-stored entry for `a.txt`. -/
def sampleOldEntry : EntryInfo :=
  { RelativePath := "a.txt", Mtime := 0, Size := 100, IsDir := false
    Checksum := "11aa", Permissions := 420 }

/-- Witness for C1 at a concrete input: a two-entry previous state and a
one-entry current scan. -/
theorem CompareStates_one_action_per_path_witness :
    ((CompareStates [("a.txt", sampleSrcEntry)]
        [("a.txt", sampleOldEntry), ("old.txt", sampleOldEntry)]).filter
      fun a => a.RelativePath == "a.txt") =
      (specActionAt [("a.txt", sampleSrcEntry)]
        [("a.txt", sampleOldEntry), ("old.txt", sampleOldEntry)]
        "a.txt").toList :=
  CompareStates_one_action_per_path _ _ _ (by decide) (by decide)

/-! ### C5: directories do receive update actions (a bug in the code) -/

/-- A directory entry as the previous state recorded it. -/
def dirEntryOld : EntryInfo :=
  { RelativePath := "d", Mtime := 0, Size := 96, IsDir := true
    Checksum := "", Permissions := 2147484141 }

/-- The same directory at scan time: its modification time moved by five
seconds (a file was added inside it), same size. -/
def dirEntryNew : EntryInfo :=
  { RelativePath := "d", Mtime := 5000000000, Size := 96, IsDir := true
    Checksum := "", Permissions := 2147484141 }

/-- C5 (code bug).  `CompareStates` never looks at `IsDir`: a directory
present in both snapshots whose modification time moved by at least the
one-second threshold gets an `ActionUpdate` whose `SourceInfo.IsDir` is
true, even though the spec says directories are never updated (and
`ExecuteActions` would then try to copy the directory as a file). -/
theorem CompareStates_emits_update_for_directory :
    CompareStates [("d", dirEntryNew)] [("d", dirEntryOld)] =
      [{ type_ := ActionUpdate, RelativePath := "d", SourceInfo := dirEntryNew }]
    ∧ dirEntryNew.IsDir = true :=
  ⟨rfl, rfl⟩

/-! ### C7: determinism of `CompareStates` -/

/-- Sample entry keyed `"a"`. -/
def entryA : EntryInfo :=
  { RelativePath := "a", Mtime := 0, Size := 1, IsDir := false
    Checksum := "aa", Permissions := 420 }

/-- Sample entry keyed `"b"`. -/
def entryB : EntryInfo :=
  { RelativePath := "b", Mtime := 0, Size := 2, IsDir := false
    Checksum := "bb", Permissions := 420 }

/-- Counterexample to C7 as stated: the same two-entry source map,
enumerated in the two orders Go's (unspecified, randomized) map iteration
may produce, yields two different action lists — element-for-element
output order is not guaranteed across invocations. -/
theorem CompareStates_output_order_not_canonical :
    List.Perm [("a", entryA), ("b", entryB)] [("b", entryB), ("a", entryA)]
    ∧ (assocKeys [("a", entryA), ("b", entryB)]).Nodup
    ∧ CompareStates [("a", entryA), ("b", entryB)] []
        ≠ CompareStates [("b", entryB), ("a", entryA)] [] :=
  ⟨List.Perm.swap _ _ _, by decide, by decide⟩

theorem assocFind?_eq_some {α : Type} {m : List (String × α)} {p : String}
    {v : α} (hnd : (assocKeys m).Nodup) :
    assocFind? m p = some v ↔ (p, v) ∈ m := by
  induction m with
  | nil => simp [assocFind?]
  | cons pe rest ih =>
    obtain ⟨k, w⟩ := pe
    simp only [assocKeys, List.map_cons, List.nodup_cons] at hnd
    by_cases hk : k = p
    · subst hk
      have hrest : k ∉ assocKeys rest := by simpa [assocKeys] using hnd.1
      constructor
      · intro h
        simp only [assocFind?, if_pos rfl] at h
        simp [← Option.some_inj.mp h]
      · intro h
        rcases List.mem_cons.mp h with h | h
        · simp [assocFind?, (Prod.mk.injEq _ _ _ _).mp h]
        · exact absurd (List.mem_map_of_mem Prod.fst h) hrest
    · have hne : (p, v) ≠ (k, w) := fun hh => hk (congrArg Prod.fst hh).symm
      simp [assocFind?, hk, ih hnd.2, hne]

theorem assocFind?_perm {α : Type} {m m' : List (String × α)}
    (h : List.Perm m m') (hnd : (assocKeys m).Nodup) (p : String) :
    assocFind? m p = assocFind? m' p := by
  have hnd' : (assocKeys m').Nodup := ((h.map Prod.fst).nodup_iff).mp hnd
  cases hm : assocFind? m p with
  | none =>
    have : p ∉ assocKeys m' := by
      intro hmem
      exact assocFind?_eq_none.mp hm
        (((h.map Prod.fst).mem_iff).mpr hmem)
    exact (assocFind?_eq_none.mpr this).symm
  | some v =>
    exact ((assocFind?_eq_some hnd').mpr
      (h.mem_iff.mp ((assocFind?_eq_some hnd).mp hm))).symm

theorem assocFind?_isNone_perm {α : Type} {m m' : List (String × α)}
    (h : List.Perm m m') (p : String) :
    (assocFind? m p).isNone = (assocFind? m' p).isNone := by
  cases hm : assocFind? m p with
  | none =>
    have : p ∉ assocKeys m' := fun hmem =>
      assocFind?_eq_none.mp hm (((h.map Prod.fst).mem_iff).mpr hmem)
    rw [assocFind?_eq_none.mpr this]
  | some v =>
    cases hm' : assocFind? m' p with
    | none =>
      have : p ∉ assocKeys m := fun hmem =>
        assocFind?_eq_none.mp hm' (((h.map Prod.fst).mem_iff).mp hmem)
      rw [assocFind?_eq_none.mpr this] at hm
      exact absurd hm (by simp)
    | some w => rfl

/-- C7 as amended.  `CompareStates` is deterministic up to action order:
for the same two maps presented in any two iteration orders, the two
invocations produce the same multiset of actions (a permutation of one
another).  The element-for-element order can differ, as the
counterexample shows. -/
theorem CompareStates_deterministic_up_to_permutation
    (src src' loaded loaded' : Snapshot)
    (hs : List.Perm src src') (hl : List.Perm loaded loaded')
    (hlk : (assocKeys loaded).Nodup) :
    List.Perm (CompareStates src loaded) (CompareStates src' loaded') := by
  unfold CompareStates
  refine List.Perm.append ?_ ?_
  · have hfun :
        (fun pe : String × EntryInfo =>
            actionForSourceEntry loaded pe.1 pe.2) =
          (fun pe : String × EntryInfo =>
            actionForSourceEntry loaded' pe.1 pe.2) := by
      funext pe
      unfold actionForSourceEntry
      rw [assocFind?_perm hl hlk pe.1]
    rw [hfun]
    exact hs.map _
  · have hfun :
        (fun pe : String × EntryInfo => (assocFind? src pe.1).isNone) =
          (fun pe : String × EntryInfo => (assocFind? src' pe.1).isNone) := by
      funext pe
      exact assocFind?_isNone_perm hs pe.1
    rw [hfun]
    exact (hl.filter _).map _

/-- Witness for the amended C7 at a concrete input: the two iteration
orders of the counterexample produce permutation-equal action lists. -/
theorem CompareStates_deterministic_up_to_permutation_witness :
    List.Perm
      (CompareStates [("a", entryA), ("b", entryB)] [("a", entryA)])
      (CompareStates [("b", entryB), ("a", entryA)] [("a", entryA)]) :=
  CompareStates_deterministic_up_to_permutation _ _ _ _
    (List.Perm.swap _ _ _) (List.Perm.refl _) (by decide)
/-! ## The exclusion matcher (`syncer.go` lines 177–199)

`shouldExclude` calls Go's `path/filepath.Base` and `path/filepath.Match`;
both are modelled here over rune (character) lists, faithfully to the Go
standard library sources (`path/filepath/path.go`, `path/filepath/match.go`
on a non-Windows platform).  The bounded `fuel` arguments replace Go's
`for` loops; every loop iteration consumes at least one pattern character,
so a fuel of pattern length + 1 never runs out. -/

/-- Go `path/filepath.Base`: empty path gives `"."`; otherwise trailing
separators are dropped, everything up to the last separator is dropped,
and an emptied path (all separators) gives `"/"`. -/
def goBase (path : String) : String :=
  if path = "" then "."
  else
    let cs := (path.toList.reverse.dropWhile (fun c => c = '/')).reverse
    let last := (cs.reverse.takeWhile (fun c => c ≠ '/')).reverse
    if last = [] then "/" else String.mk last

/-- The leading-star consumption at the top of Go `filepath.scanChunk`. -/
def dropStars : List Char → Bool × List Char
  | [] => (false, [])
  | c :: rest =>
    if c = '*' then (true, (dropStars rest).2)
    else (false, c :: rest)

/-- The scan loop of Go `filepath.scanChunk`: split the pattern at the
next `*` that is not inside a `[...]` range, keeping `\`-escapes with the
character they escape. -/
def chunkSplit (inrange : Bool) : List Char → List Char × List Char
  | [] => ([], [])
  | c :: rest =>
    if c = '\\' then
      match rest with
      | [] => ([c], [])
      | d :: rest2 =>
        let (a, b) := chunkSplit inrange rest2
        (c :: d :: a, b)
    else if c = '[' then
      let (a, b) := chunkSplit true rest
      (c :: a, b)
    else if c = ']' then
      let (a, b) := chunkSplit false rest
      (c :: a, b)
    else if c = '*' && !inrange then
      ([], c :: rest)
    else
      let (a, b) := chunkSplit inrange rest
      (c :: a, b)

/-- Go `filepath.scanChunk`: strip leading stars, then split off the next
chunk of the pattern. -/
def scanChunk (pattern : List Char) : Bool × List Char × List Char :=
  let (star, p) := dropStars pattern
  let (chunk, rest) := chunkSplit false p
  (star, chunk, rest)

/-- Go `filepath.getEsc`: one (possibly escaped) endpoint character of a
`[...]` range; `Except.error` on a malformed pattern. -/
def getEsc : List Char → Except Unit (Char × List Char)
  | [] => .error ()
  | c :: rest =>
    if c = '-' ∨ c = ']' then .error ()
    else if c = '\\' then
      match rest with
      | [] => .error ()
      | r :: rest2 => if rest2 = [] then .error () else .ok (r, rest2)
    else
      if rest = [] then .error () else .ok (c, rest)

/-- The range-parsing loop inside the `[` case of Go `filepath.matchChunk`:
parse `lo`(`-hi`) ranges until the closing `]` (which only closes once at
least one range was read), accumulating whether the probed character `r`
fell inside any range. -/
def matchRanges (r : Char) : Nat → List Char → Bool → Bool →
    Except Unit (Bool × List Char)
  | 0, _, _, _ => .error ()
  | fuel + 1, chunk, nrangePos, acc =>
    match chunk, nrangePos with
    | ']' :: rest, true => .ok (acc, rest)
    | chunk, _ =>
      match getEsc chunk with
      | .error e => .error e
      | .ok (lo, chunk1) =>
        match (if chunk1.headD ' ' = '-' then getEsc chunk1.tail
               else .ok (lo, chunk1) : Except Unit (Char × List Char)) with
        | .error e => .error e
        | .ok (hi, chunk2) =>
          matchRanges r fuel chunk2 true
            (acc || (decide (lo ≤ r) && decide (r ≤ hi)))

/-- Go `filepath.matchChunk`: match a star-free chunk against the start
of `s`.  `failed` records a mismatch while the rest of the chunk is still
scanned for well-formedness, exactly as in the Go code.  `.ok (some t)`
is a match leaving `t` of `s`; `.ok none` a well-formed mismatch. -/
def matchChunkGo : Nat → List Char → List Char → Bool →
    Except Unit (Option (List Char))
  | 0, _, _, _ => .error ()
  | fuel + 1, chunk, s, failed0 =>
    match chunk with
    | [] => .ok (if failed0 then none else some s)
    | c :: chunkRest =>
      let failed := failed0 || s.isEmpty
      if c = '[' then
        let r := if failed then Char.ofNat 0 else s.headD (Char.ofNat 0)
        let s1 := if failed then s else s.tail
        let negChunk : Bool × List Char :=
          match chunkRest with
          | '^' :: t => (true, t)
          | _ => (false, chunkRest)
        match matchRanges r fuel negChunk.2 false false with
        | .error e => .error e
        | .ok (m, chunk2) =>
          matchChunkGo fuel chunk2 s1 (failed || (m == negChunk.1))
      else if c = '?' then
        if failed then matchChunkGo fuel chunkRest s true
        else matchChunkGo fuel chunkRest s.tail (decide (s.headD ' ' = '/'))
      else if c = '\\' then
        match chunkRest with
        | [] => .error ()
        | d :: chunkRest2 =>
          if failed then matchChunkGo fuel chunkRest2 s true
          else matchChunkGo fuel chunkRest2 s.tail (d != s.headD ' ')
      else
        if failed then matchChunkGo fuel chunkRest s true
        else matchChunkGo fuel chunkRest s.tail (c != s.headD ' ')

/-- Go `filepath.matchChunk` with its fuel filled in. -/
def matchChunk (chunk s : List Char) : Except Unit (Option (List Char)) :=
  matchChunkGo (chunk.length + 1) chunk s false

/-- The inner star loop of Go `filepath.Match`: retry the chunk at each
successive position of `name`, stopping at a path separator. -/
def matchStarLoop (chunk rest : List Char) : List Char →
    Except Unit (Option (List Char))
  | [] => .ok none
  | c :: nameRest =>
    if c = '/' then .ok none
    else
      match matchChunk chunk nameRest with
      | .ok (some t) =>
        if rest.isEmpty && !t.isEmpty then matchStarLoop chunk rest nameRest
        else .ok (some t)
      | .ok none => matchStarLoop chunk rest nameRest
      | .error e => .error e

/-- The `Pattern:` loop of Go `path/filepath.Match`. -/
def goMatchAux : Nat → List Char → List Char → Except Unit Bool
  | 0, _, _ => .error ()
  | fuel + 1, pattern, name =>
    match pattern with
    | [] => .ok name.isEmpty
    | _ :: _ =>
      let (star, chunk, rest) := scanChunk pattern
      if star && chunk.isEmpty then
        .ok (!name.contains '/')
      else
        match matchChunk chunk name with
        | .error e => .error e
        | .ok (some t) =>
          if t.isEmpty || !rest.isEmpty then goMatchAux fuel rest t
          else if star then
            match matchStarLoop chunk rest name with
            | .error e => .error e
            | .ok (some t2) => goMatchAux fuel rest t2
            | .ok none => .ok false
          else .ok false
        | .ok none =>
          if star then
            match matchStarLoop chunk rest name with
            | .error e => .error e
            | .ok (some t2) => goMatchAux fuel rest t2
            | .ok none => .ok false
          else .ok false

/-- Go `path/filepath.Match(pattern, name)` over rune lists; a malformed
pattern is `Except.error`. -/
def filepathMatch (pattern name : String) : Except Unit Bool :=
  goMatchAux (pattern.toList.length + 1) pattern.toList name.toList

/-- Go `strings.HasSuffix(pattern, "/")`, at the rune level (`/` is a
single byte, so byte-suffix and rune-suffix agree on UTF-8 input). -/
def endsWithSlash (s : String) : Bool := s.toList.getLast? == some '/'

/-- Go `strings.TrimSuffix(pattern, "/")` in the branch where the suffix
is known to be present: drop the final rune. -/
def trimSlash (s : String) : String := String.mk s.toList.dropLast

/-- Go `strings.HasPrefix`, at the rune level (byte-prefix and
rune-prefix agree on UTF-8 input). -/
def hasPrefixStr (pre s : String) : Bool := pre.toList.isPrefixOf s.toList

/-- `shouldExclude` from `internal/syncer/syncer.go`: the loop over the
patterns with its early `return true`.  A pattern ending in `/` is a
directory rule (equal to, or nested under, the pattern with the separator
stripped); any other pattern is glob-matched against the path's base name
(a `filepath.Match` error is discarded, as in the Go call) or compared
with the whole relative path. -/
def shouldExclude (relPath : String) (matchers : List String) : Bool :=
  match matchers with
  | [] => false
  | pattern :: restMatchers =>
    if endsWithSlash pattern then
      let dirPattern := trimSlash pattern
      if relPath = dirPattern ∨ hasPrefixStr (dirPattern ++ "/") relPath = true
      then true
      else shouldExclude relPath restMatchers
    else
      let matched :=
        match filepathMatch pattern (goBase relPath) with
        | .ok b => b
        | .error _ => false
      if matched then true
      else if pattern = relPath then true
      else shouldExclude relPath restMatchers

/-- One pattern's worth of `shouldExclude`'s loop body, as a Boolean. -/
def patternHit (relPath pattern : String) : Bool :=
  if endsWithSlash pattern then
    decide (relPath = trimSlash pattern ∨
      hasPrefixStr (trimSlash pattern ++ "/") relPath = true)
  else
    (match filepathMatch pattern (goBase relPath) with
      | .ok b => b
      | .error _ => false) || decide (pattern = relPath)

theorem shouldExclude_cons (relPath pattern : String) (rest : List String) :
    shouldExclude relPath (pattern :: rest) =
      (patternHit relPath pattern || shouldExclude relPath rest) := by
  unfold patternHit
  by_cases hdir : endsWithSlash pattern = true
  · by_cases hc : relPath = trimSlash pattern ∨
        hasPrefixStr (trimSlash pattern ++ "/") relPath = true
    · simp [shouldExclude, hdir, hc]
    · simp [shouldExclude, hdir, hc]
  · by_cases hg :
        (match filepathMatch pattern (goBase relPath) with
          | .ok b => b
          | .error _ => false) = true
    · simp [shouldExclude, hdir, hg]
    · by_cases he : pattern = relPath
      · simp [shouldExclude, hdir, hg, he, Bool.or_assoc]
      · simp [shouldExclude, hdir, hg, he]

/-- The specification's per-pattern rule, written from the spec's words:
a pattern ending in the path separator matches when the path equals the
pattern with the separator stripped or is nested under it; any other
pattern matches by glob against the path's base name or by exact equality
with the full relative path. -/
def specPatternMatches (relPath pattern : String) : Prop :=
  if endsWithSlash pattern then
    relPath = trimSlash pattern ∨
      (hasPrefixStr (trimSlash pattern ++ "/") relPath) = true
  else
    filepathMatch pattern (goBase relPath) = .ok true ∨ pattern = relPath

theorem patternHit_iff (relPath pattern : String) :
    patternHit relPath pattern = true ↔ specPatternMatches relPath pattern := by
  unfold patternHit specPatternMatches
  by_cases hdir : endsWithSlash pattern = true
  · simp [hdir]
  · have hglob :
        (match filepathMatch pattern (goBase relPath) with
          | .ok b => b
          | .error _ => false) = true ↔
          filepathMatch pattern (goBase relPath) = .ok true := by
      cases h : filepathMatch pattern (goBase relPath) with
      | ok b => cases b <;> simp
      | error e => simp
    simp [hdir, hglob]

/-- C9.  `shouldExclude` is a total Lean function (hence side-effect
free); it returns true exactly when some pattern of the list matches
under the specification's per-pattern rule; and the three concrete
examples of the spec hold. -/
theorem shouldExclude_spec :
    (∀ (relPath : String) (matchers : List String),
      shouldExclude relPath matchers = true ↔
        ∃ pattern ∈ matchers, specPatternMatches relPath pattern)
    ∧ shouldExclude "node_modules/pkg/file.js" ["node_modules/"] = true
    ∧ shouldExclude "src/file.js" ["node_modules/"] = false
    ∧ shouldExclude "a.log" ["*.log"] = true := by
  refine ⟨fun relPath matchers => ?_, by decide, by decide, by decide⟩
  induction matchers with
  | nil => simp [shouldExclude]
  | cons pattern restMatchers ih =>
    rw [shouldExclude_cons]
    simp only [Bool.or_eq_true, ih, patternHit_iff, List.mem_cons]
    constructor
    · rintro (h | ⟨q, hq, hspec⟩)
      · exact ⟨pattern, Or.inl rfl, h⟩
      · exact ⟨q, Or.inr hq, hspec⟩
    · rintro ⟨q, hq | hq, hspec⟩
      · subst hq
        exact Or.inl hspec
      · exact Or.inr ⟨q, hq, hspec⟩
/-! ## The scanner's per-entry logic (`syncer.go` lines 92–155)

`ScanSource`'s filesystem walk is modelled as a fold over the entries the
walk delivers (the root itself excluded), each carrying the outcome of
its metadata probe (`d.Info()` through the retry wrapper) and, for files,
of its checksum computation (`generateChecksum` through the retry
wrapper). -/

/-- One lowercase hex digit, as Go `encoding/hex` produces. -/
def hexDigit (n : Nat) : Char :=
  if n < 10 then Char.ofNat (48 + n) else Char.ofNat (87 + n)

/-- Go `hex.EncodeToString`: two lowercase hex digits per byte (each byte
is below 256); the empty string for a nil slice. -/
def hexEncodeToString (bs : List Nat) : String :=
  String.mk (bs.foldr
    (fun b acc => hexDigit (b / 16) :: hexDigit (b % 16) :: acc) [])

/-- The outcome of `d.Info()` through the retry wrapper. -/
inductive InfoResult where
  | ok (mtime : Int) (size : Int) (mode : Nat)
  | errNotExist
  | errOther
  deriving Repr, DecidableEq

/-- The outcome of `generateChecksum` through the retry wrapper:
the hash bytes, a not-exist error (the file disappeared), or any other
error. -/
inductive ChecksumResult where
  | ok (bytes : List Nat)
  | errNotExist
  | errOther
  deriving Repr, DecidableEq

/-- One path the walk visits (root excluded), with its relative path as
computed by `filepath.Rel` + `filepath.Clean`, and the outcomes of its
probes. -/
structure WalkEntry where
  relPath : String
  isDir : Bool
  info : InfoResult
  checksum : ChecksumResult
  deriving Repr, DecidableEq

/-- The body of `ScanSource`'s walk callback for one visited path
(`syncer.go` lines 102–154): skip `.` and excluded names; skip entries
whose metadata probe failed; store directories with an empty checksum;
for files, a vanished file is skipped, and any other checksum failure is
logged — but the entry is still stored, with the hex encoding of the nil
byte slice (the Go code does not return after the log). -/
def processWalkEntry (entries : Snapshot) (w : WalkEntry) : Snapshot :=
  if w.relPath = "." ∨ shouldExclude w.relPath [".DS_Store"] = true then
    entries
  else
    match w.info with
    | .errNotExist => entries
    | .errOther => entries
    | .ok mtime size mode =>
      let entry : EntryInfo :=
        { RelativePath := w.relPath, Mtime := mtime, Size := size
          IsDir := w.isDir, Permissions := mode, Checksum := "" }
      if w.isDir then
        assocInsert entries w.relPath entry
      else
        match w.checksum with
        | .errNotExist => entries
        | .errOther =>
          assocInsert entries w.relPath
            { entry with Checksum := hexEncodeToString [] }
        | .ok bytes =>
          assocInsert entries w.relPath
            { entry with Checksum := hexEncodeToString bytes }

/-- `ScanSource`'s accumulation of the snapshot over the walk. -/
def ScanSource (walk : List WalkEntry) : Snapshot :=
  walk.foldl processWalkEntry []

/-- C4 (code bug).  A file whose checksum computation fails for a reason
other than disappearance is not skipped from the snapshot: `ScanSource`
stores it under its relative path with an empty fingerprint, contradicting
both the claim and the code's own log message ("checksum failed, skipping
file") and doc comment. -/
theorem scanSource_keeps_file_after_checksum_failure :
    ScanSource
      [{ relPath := "flaky.txt", isDir := false
         info := .ok 1700000000000000000 4 420, checksum := .errOther }] =
      [("flaky.txt",
        { RelativePath := "flaky.txt", Mtime := 1700000000000000000, Size := 4
          IsDir := false, Checksum := "", Permissions := 420 })] := by
  decide

/-! ## `CopyFile` (`internal/fileops/fileops.go` lines 26–141) -/

/-- The chunk sequence the producer goroutine of `copyFileBatching`
reads: successive `chunkSize`-byte slices of the source, the last one
possibly short.  Structured with explicit fuel (one unit per loop
iteration; `length + 1` always suffices since every iteration consumes at
least one byte when `chunkSize > 0`; with `chunkSize = 0` the Go loop
would never progress, and callers only pass positive chunk sizes). -/
def chunksOfFuel : Nat → Nat → List Nat → List (List Nat)
  | 0, _, _ => []
  | fuel + 1, chunkSize, l =>
    if l = [] ∨ chunkSize = 0 then []
    else l.take chunkSize :: chunksOfFuel fuel chunkSize (l.drop chunkSize)

/-- The chunk sequence of the source's bytes. -/
def chunksOf (chunkSize : Nat) (l : List Nat) : List (List Nat) :=
  chunksOfFuel (l.length + 1) chunkSize l

/-- Writing a byte sequence from offset 0 over a destination opened
`os.O_CREATE|os.O_WRONLY` — without `O_TRUNC`: the new bytes overwrite
the front and any longer prior tail survives. -/
def overwriteFrom (prior newData : List Nat) : List Nat :=
  newData ++ prior.drop newData.length

/-- The data flow of `copyFileBatching`: the producer reads the chunks in
order, the bounded FIFO channel delivers them unchanged and in order, and
the consumer writes them from offset 0 of the destination file, which is
opened without truncation.  `priorDst` is the destination's previous
content (`[]` when the file did not exist). -/
def copyFileBatching (srcContent priorDst : List Nat) (chunkSize : Nat) :
    List Nat :=
  overwriteFrom priorDst (chunksOf chunkSize srcContent).flatten

/-- `CopyFile`: `copyFileBatching` when the source size is at or above
the chunk size, otherwise the whole-file `os.ReadFile` + `os.WriteFile`
(which does truncate).  Returns (batched strategy used?, destination
bytes after the copy). -/
def CopyFile (srcContent priorDst : List Nat) (chunkSize : Nat) :
    Bool × List Nat :=
  if srcContent.length ≥ chunkSize then
    (true, copyFileBatching srcContent priorDst chunkSize)
  else
    (false, srcContent)

theorem chunksOfFuel_join (chunkSize : Nat) (hc : 0 < chunkSize) :
    ∀ (fuel : Nat) (l : List Nat), l.length < fuel →
      (chunksOfFuel fuel chunkSize l).flatten = l := by
  intro fuel
  induction fuel with
  | zero => intro l hl; omega
  | succ n ih =>
    intro l hl
    by_cases h : l = []
    · subst h
      simp [chunksOfFuel]
    · have hpos : 0 < l.length := List.length_pos.mpr h
      rw [chunksOfFuel, if_neg (by push_neg; exact ⟨h, by omega⟩)]
      rw [List.flatten_cons, ih (l.drop chunkSize) (by simp; omega)]
      exact List.take_append_drop chunkSize l

/-- The chunked split loses no bytes: joining the chunks restores the
source exactly. -/
theorem chunksOf_join (chunkSize : Nat) (hc : 0 < chunkSize)
    (l : List Nat) : (chunksOf chunkSize l).flatten = l :=
  chunksOfFuel_join chunkSize hc _ l (Nat.lt_succ_self _)

/-- C2 (code bug).  The strategy gate works as specified (batched exactly
when size ≥ chunk size) and a fresh destination comes out byte-identical;
but because the batched path opens the destination without `O_TRUNC`, a
pre-existing longer destination keeps its stale tail: copying a 1-byte
source over a 2-byte destination leaves 2 bytes, so the destination is
not byte-identical to the source and the sizes differ. -/
theorem copyFile_batching_keeps_stale_tail :
    CopyFile [1] [] 1 = (true, [1])
    ∧ CopyFile [7, 8] [0, 0, 0] 5 = (false, [7, 8])
    ∧ CopyFile [1] [2, 3] 1 = (true, [1, 3])
    ∧ [1, 3] ≠ [1] := by
  decide
/-! ## The state store (`internal/syncer/state.go`)

The wire format is modelled at the level of JSON values.  `encoding/json`
serializes Go `time.Time` as an RFC3339 string — an injective textual
encoding of the timestamp that `json.Unmarshal` inverts exactly; the
model keeps the nanosecond timestamp as the JSON value itself.  (Go also
emits map keys in sorted order; both orders denote the same map and the
model keeps the association list's own order.) -/

/-- A JSON value. -/
inductive Json where
  | null
  | bool (b : Bool)
  | num (n : Int)
  | str (s : String)
  | arr (xs : List Json)
  | obj (fields : List (String × Json))

/-- `SyncState` from `internal/syncer/state.go`: schema version,
last-sync time in epoch milliseconds (`time.Now().UnixMilli()`), and the
entry map. -/
structure SyncState where
  Version : Int
  LastSync : Int
  Entries : Snapshot
  deriving Repr, DecidableEq

/-- `json.Marshal` of one `EntryInfo` (the struct has no tags, so the Go
field names are the keys, in declaration order). -/
def marshalEntryInfo (e : EntryInfo) : Json :=
  .obj [("RelativePath", .str e.RelativePath),
        ("Mtime", .num e.Mtime),
        ("Size", .num e.Size),
        ("IsDir", .bool e.IsDir),
        ("Checksum", .str e.Checksum),
        ("Permissions", .num (e.Permissions : Int))]

/-- `json.Marshal` of `SyncState`, with its `v`/`ls`/`e` field tags. -/
def marshalSyncState (st : SyncState) : Json :=
  .obj [("v", .num st.Version),
        ("ls", .num st.LastSync),
        ("e", .obj (st.Entries.map fun pe => (pe.1, marshalEntryInfo pe.2)))]

/-- `json.Unmarshal` into a `string` field: absent or `null` leaves the
zero value, a JSON string sets it, anything else is a type error. -/
def decodeStr : Option Json → Except Unit String
  | none => .ok ""
  | some .null => .ok ""
  | some (.str s) => .ok s
  | some _ => .error ()

/-- `json.Unmarshal` into an integer-valued field (`int`, `int64`, or a
`time.Time` timestamp): absent or `null` leaves the zero value. -/
def decodeInt : Option Json → Except Unit Int
  | none => .ok 0
  | some .null => .ok 0
  | some (.num n) => .ok n
  | some _ => .error ()

/-- `json.Unmarshal` into a `bool` field. -/
def decodeBool : Option Json → Except Unit Bool
  | none => .ok false
  | some .null => .ok false
  | some (.bool b) => .ok b
  | some _ => .error ()

/-- `json.Unmarshal` into the `uint32`-valued `os.FileMode`: a number out
of the `uint32` range (negative or too large) is an unmarshal error. -/
def decodeFileMode : Option Json → Except Unit Nat
  | none => .ok 0
  | some .null => .ok 0
  | some (.num n) =>
    if 0 ≤ n ∧ n < 4294967296 then .ok n.toNat else .error ()
  | some _ => .error ()

/-- `json.Unmarshal` of one `EntryInfo` value: the target must be an
object (or `null`, which leaves the zero struct); unknown keys are
ignored, absent keys leave the zero value, wrongly-typed values error. -/
def decodeEntryInfo : Json → Except Unit EntryInfo
  | .null => .ok emptyEntryInfo
  | .obj fields => do
    let rp ← decodeStr (assocFind? fields "RelativePath")
    let mt ← decodeInt (assocFind? fields "Mtime")
    let sz ← decodeInt (assocFind? fields "Size")
    let isDir ← decodeBool (assocFind? fields "IsDir")
    let cs ← decodeStr (assocFind? fields "Checksum")
    let pm ← decodeFileMode (assocFind? fields "Permissions")
    .ok { RelativePath := rp, Mtime := mt, Size := sz, IsDir := isDir
          Checksum := cs, Permissions := pm }
  | _ => .error ()

/-- `json.Unmarshal` of the entry map's values, one field at a time. -/
def decodeEntriesList : List (String × Json) → Except Unit Snapshot
  | [] => .ok []
  | pe :: rest => do
    let v ← decodeEntryInfo pe.2
    let tail ← decodeEntriesList rest
    .ok ((pe.1, v) :: tail)

/-- `json.Unmarshal` into `map[string]EntryInfo`: absent or `null` leaves
the nil map; an object decodes every value; anything else errors. -/
def decodeEntries : Option Json → Except Unit Snapshot
  | none => .ok []
  | some .null => .ok []
  | some (.obj fields) => decodeEntriesList fields
  | some _ => .error ()

/-- `json.Unmarshal` of the state file's top-level value into
`SyncState`.  There is no schema-version check: whatever integer `v`
holds is stored as-is. -/
def decodeSyncState : Json → Except Unit SyncState
  | .null => .ok { Version := 0, LastSync := 0, Entries := [] }
  | .obj fields => do
    let v ← decodeInt (assocFind? fields "v")
    let ls ← decodeInt (assocFind? fields "ls")
    let es ← decodeEntries (assocFind? fields "e")
    .ok { Version := v, LastSync := ls, Entries := es }
  | _ => .error ()

/-- A file's bytes as the state store sees them: either they parse as a
JSON value or they are malformed (unparseable). -/
inductive FileData where
  | wellFormed (j : Json)
  | malformed

/-- The two files `SaveState`/`LoadState` touch under the destination:
the canonical `.sync_state` and the sibling `.sync_state.tmp`. -/
structure DstFS where
  stateFile : Option FileData
  tempFile : Option FileData

/-- `SaveState`'s error results. -/
inductive SaveError where
  | nilState   -- ErrSyncStateNil
  | emptyDst   -- ErrSyncStateEmptyDst
  | replace    -- ErrSyncStateReplace: the rename failed
  deriving Repr, DecidableEq

/-- `SaveState` from `internal/syncer/state.go`.  `now` is
`time.Now().UnixMilli()`; `renameOk` is the outcome of the `os.Rename`
of the temp file over the state file (the marshal, `MkdirAll` and the
temp-file write are modelled as succeeding — their failures need external
faults no claim exercises).  On a failed rename the temp file is removed
(`os.Remove`) and the state file is left as it was. -/
def SaveState (fs : DstFS) (dstDir : String) (state : Option SyncState)
    (now : Int) (renameOk : Bool) : DstFS × Option SaveError :=
  match state with
  | none => (fs, some .nilState)
  | some st =>
    if dstDir = "" then (fs, some .emptyDst)
    else
      let stamped := { st with LastSync := now }
      let data := marshalSyncState stamped
      if renameOk then
        ({ stateFile := some (.wellFormed data), tempFile := none }, none)
      else
        ({ stateFile := fs.stateFile, tempFile := none }, some .replace)

/-- `LoadState`'s error results. -/
inductive LoadError where
  | emptyDst            -- ErrSyncStateEmptyDst
  | jsonParse           -- ErrSyncStateJSONParse
  | save (e : SaveError)  -- the fresh-state save's error, passed through
  deriving Repr, DecidableEq

/-- `LoadState` from `internal/syncer/state.go`.  With no state file
present it builds a fresh empty state (version 1, current timestamp),
immediately saves it, and returns it together with that save's error
(Go: `return data, SaveState(dstDir, data)`).  An existing file is read
and deserialized; malformed content is an error and there is no
schema-version check. -/
def LoadState (fs : DstFS) (dstDir : String) (now : Int) (renameOk : Bool) :
    DstFS × Option SyncState × Option LoadError :=
  if dstDir = "" then (fs, none, some .emptyDst)
  else
    match fs.stateFile with
    | none =>
      let fresh : SyncState := { Version := 1, LastSync := now, Entries := [] }
      let saved := SaveState fs dstDir (some fresh) now renameOk
      (saved.1, some fresh, saved.2.map .save)
    | some .malformed => (fs, none, some .jsonParse)
    | some (.wellFormed j) =>
      match decodeSyncState j with
      | .error _ => (fs, none, some .jsonParse)
      | .ok st => (fs, some st, none)
/-! ### Round-trip of the wire format -/

theorem decodeEntryInfo_marshal (e : EntryInfo)
    (hp : e.Permissions < 4294967296) :
    decodeEntryInfo (marshalEntryInfo e) = .ok e := by
  have hcast : (e.Permissions : Int) < 4294967296 := by exact_mod_cast hp
  simp only [marshalEntryInfo, decodeEntryInfo, assocFind?, decodeStr,
    decodeInt, decodeBool, decodeFileMode, if_pos rfl,
    if_pos (And.intro (Int.natCast_nonneg _) hcast), Int.toNat_natCast,
    String.reduceEq, reduceIte]
  rfl

theorem decodeEntriesList_marshal (entries : Snapshot)
    (hp : ∀ pe ∈ entries, pe.2.Permissions < 4294967296) :
    decodeEntriesList (entries.map fun pe => (pe.1, marshalEntryInfo pe.2)) =
      .ok entries := by
  induction entries with
  | nil => rfl
  | cons pe rest ih =>
    have hpe : pe.2.Permissions < 4294967296 :=
      hp pe (List.mem_cons_self _ _)
    have hrest : ∀ q ∈ rest, q.2.Permissions < 4294967296 :=
      fun q hq => hp q (List.mem_cons_of_mem _ hq)
    simp only [List.map_cons, decodeEntriesList,
      decodeEntryInfo_marshal pe.2 hpe, ih hrest]
    rfl

theorem decodeSyncState_marshal (st : SyncState)
    (hp : ∀ pe ∈ st.Entries, pe.2.Permissions < 4294967296) :
    decodeSyncState (marshalSyncState st) = .ok st := by
  simp only [marshalSyncState, decodeSyncState, assocFind?, decodeInt,
    decodeEntries, decodeEntriesList_marshal st.Entries hp,
    String.reduceEq, reduceIte]
  rfl

/-- C8.  A successful `SaveState` followed by `LoadState` on the same
destination returns exactly the state as saved: the same schema version,
the last-sync timestamp the save stamped (epoch milliseconds), and the
same entry map with every `EntryInfo` field preserved.  The `uint32`
bound on the permission bits always holds for a real `os.FileMode`. -/
theorem saveState_loadState_roundTrip (fs : DstFS) (dstDir : String)
    (st : SyncState) (now now2 : Int) (renameOk2 : Bool)
    (hdst : dstDir ≠ "")
    (hp : ∀ pe ∈ st.Entries, pe.2.Permissions < 4294967296) :
    LoadState (SaveState fs dstDir (some st) now true).1 dstDir now2
        renameOk2 =
      ((SaveState fs dstDir (some st) now true).1,
        some { st with LastSync := now }, none) := by
  have hp' : ∀ pe ∈ ({ st with LastSync := now } : SyncState).Entries,
      pe.2.Permissions < 4294967296 := hp
  simp [SaveState, LoadState, hdst, decodeSyncState_marshal _ hp']

/-- Witness for C8 at a concrete destination and state. -/
theorem saveState_loadState_roundTrip_witness :
    LoadState
        (SaveState ⟨none, none⟩ "dst"
          (some { Version := 1, LastSync := 7, Entries := [("a", entryA)] })
          99 true).1
        "dst" 123 true =
      ((SaveState ⟨none, none⟩ "dst"
          (some { Version := 1, LastSync := 7, Entries := [("a", entryA)] })
          99 true).1,
        some { Version := 1, LastSync := 99, Entries := [("a", entryA)] },
        none) :=
  saveState_loadState_roundTrip _ _ _ _ _ _ (by decide) (by decide)

/-- C3.  If the rename step fails, `SaveState` surfaces the error, the
temp file is removed, the previously persisted state file is unchanged,
and a subsequent `LoadState` returns exactly what it would have returned
before the failed save; and `SaveState` fails fast, writing nothing, on a
nil state or an empty destination path. -/
theorem saveState_rename_failure_atomic (fs : DstFS) (dstDir : String)
    (st : SyncState) (now now2 : Int) (r r2 : Bool) (hdst : dstDir ≠ "") :
    ((SaveState fs dstDir (some st) now false).2 = some .replace
      ∧ (SaveState fs dstDir (some st) now false).1.stateFile = fs.stateFile
      ∧ (SaveState fs dstDir (some st) now false).1.tempFile = none
      ∧ (LoadState (SaveState fs dstDir (some st) now false).1 dstDir now2
            r2).2 =
          (LoadState fs dstDir now2 r2).2)
    ∧ SaveState fs dstDir none now r = (fs, some .nilState)
    ∧ SaveState fs "" (some st) now r = (fs, some .emptyDst) := by
  refine ⟨⟨?_, ?_, ?_, ?_⟩, rfl, by simp [SaveState]⟩
  · simp [SaveState, hdst]
  · simp [SaveState, hdst]
  · simp [SaveState, hdst]
  · have hsave :
        (SaveState fs dstDir (some st) now false).1 =
          { stateFile := fs.stateFile, tempFile := none } := by
      simp [SaveState, hdst]
    rw [hsave]
    cases hsf : fs.stateFile with
    | none => cases r2 <;> simp [LoadState, SaveState, hdst, hsf]
    | some fd =>
      cases fd with
      | malformed => simp [LoadState, hdst, hsf]
      | wellFormed j =>
        simp only [LoadState, if_neg hdst, hsf]
        cases decodeSyncState j <;> rfl

/-- The concrete prior filesystem used by the C3 witness: a persisted
version-1 empty state. -/
def priorFS : DstFS :=
  { stateFile := some (.wellFormed (marshalSyncState
      { Version := 1, LastSync := 7, Entries := [] }))
    tempFile := none }

/-- The concrete state the C3 witness tries to save. -/
def pendingState : SyncState :=
  { Version := 1, LastSync := 8, Entries := [("a", entryA)] }

/-- Witness for C3 at a concrete filesystem holding a version-1 state. -/
theorem saveState_rename_failure_atomic_witness :
    ((SaveState priorFS "dst" (some pendingState) 99 false).2 = some .replace
      ∧ (SaveState priorFS "dst" (some pendingState) 99 false).1.stateFile =
          priorFS.stateFile
      ∧ (SaveState priorFS "dst" (some pendingState) 99 false).1.tempFile =
          none
      ∧ (LoadState (SaveState priorFS "dst" (some pendingState) 99 false).1
            "dst" 123 true).2 =
          (LoadState priorFS "dst" 123 true).2)
    ∧ SaveState priorFS "dst" none 99 true = (priorFS, some .nilState)
    ∧ SaveState priorFS "" (some pendingState) 99 true =
        (priorFS, some .emptyDst) :=
  saveState_rename_failure_atomic priorFS "dst" pendingState 99 123 true true
    (by decide)

/-! ### C6: version handling and malformed content -/

/-- A well-formed persisted state whose schema version is 2, not 1. -/
def versionTwoState : SyncState :=
  { Version := 2, LastSync := 42, Entries := [] }

/-- Counterexample to C6 as stated: `LoadState` has no schema-version
check, so an existing well-formed state file carrying version 2 loads
with no error at all (and hands back version 2). -/
theorem loadState_accepts_version_two :
    LoadState
        ⟨some (.wellFormed (marshalSyncState versionTwoState)), none⟩
        "dst" 0 true =
      (⟨some (.wellFormed (marshalSyncState versionTwoState)), none⟩,
        some versionTwoState, none) := rfl

/-- C6 as amended.  `LoadState` on an existing state file returns a hard
error on malformed content (unparseable bytes, or parseable content of
the wrong shape) with no partial recovery — no state is handed back; but
it performs no schema-version check: any well-formed file loads
successfully with whatever version it carries. -/
theorem loadState_malformed_error_no_version_check (fs : DstFS)
    (dstDir : String) (now : Int) (r : Bool) (j : Json) (st : SyncState)
    (hdst : dstDir ≠ "") :
    (fs.stateFile = some .malformed →
      LoadState fs dstDir now r = (fs, none, some .jsonParse))
    ∧ (fs.stateFile = some (.wellFormed j) →
        decodeSyncState j = .error () →
      LoadState fs dstDir now r = (fs, none, some .jsonParse))
    ∧ (fs.stateFile = some (.wellFormed j) → decodeSyncState j = .ok st →
      LoadState fs dstDir now r = (fs, some st, none)) := by
  exact ⟨fun h => by simp [LoadState, hdst, h],
    fun h hd => by simp [LoadState, hdst, h, hd],
    fun h hd => by simp [LoadState, hdst, h, hd]⟩

/-- Witness for the amended C6: a malformed file errors, and the
version-2 file of the counterexample's shape loads. -/
theorem loadState_malformed_error_no_version_check_witness :
    (LoadState ⟨some .malformed, none⟩ "dst" 0 true =
      (⟨some .malformed, none⟩, none, some .jsonParse))
    ∧ (LoadState ⟨some (.wellFormed (.num 5)), none⟩ "dst" 0 true =
      (⟨some (.wellFormed (.num 5)), none⟩, none, some .jsonParse)) :=
  ⟨(loadState_malformed_error_no_version_check
      ⟨some .malformed, none⟩ "dst" 0 true (.num 5) versionTwoState
      (by decide)).1 rfl,
   (loadState_malformed_error_no_version_check
      ⟨some (.wellFormed (.num 5)), none⟩ "dst" 0 true (.num 5)
      versionTwoState (by decide)).2.1 rfl rfl⟩
/-! ## `DeletePath` (`internal/fileops/fileops.go` lines 154–168) -/

/-- The destination tree for `DeletePath`, as the list of existing paths
(a directory's contents are the paths nested under it). -/
abbrev PathSet := List String

/-- Whether removing `name` removes `p`: `os.RemoveAll` removes the
named path and everything beneath it. -/
def underPath (name p : String) : Bool :=
  p == name || (name ++ "/").toList.isPrefixOf p.toList

/-- Go `os.RemoveAll(name)`: removes `name` and everything it contains;
by its documented contract it returns nil — no error — when the path does
not exist.  `failures` are the paths an underlying I/O fault prevents
removing; on such a fault the call errors (the partially-removed tree on
the failure path is not modelled further — no claim reads it). -/
def removeAll (paths failures : PathSet) (name : String) : PathSet × Bool :=
  let victims := paths.filter (fun p => underPath name p)
  if victims.any (fun p => failures.contains p) then (paths, false)
  else (paths.filter (fun p => !underPath name p), true)

/-- `DeletePath` from `internal/fileops/fileops.go`: stats the path (for
logging only) and calls `os.RemoveAll`; returns the tree, the success
flag and whether an error was returned. -/
def DeletePath (paths failures : PathSet) (name : String) :
    PathSet × Bool × Bool :=
  let removed := removeAll paths failures name
  if removed.2 then (removed.1, true, false) else (removed.1, false, true)

/-- Helper for C10: when nothing in the tree equals `name` or lies under
it, `RemoveAll` finds no victims, so `DeletePath` returns success with no
error and an unchanged tree. -/
theorem deletePath_of_absent (paths failures : PathSet) (name : String)
    (habsent : ∀ p ∈ paths, underPath name p = false) :
    DeletePath paths failures name = (paths, true, false) := by
  have hvict : paths.filter (fun p => underPath name p) = [] :=
    List.filter_eq_nil_iff.mpr (fun p hp => by simp [habsent p hp])
  have hkeep : paths.filter (fun p => !underPath name p) = paths :=
    List.filter_eq_self.mpr (fun p hp => by simp [habsent p hp])
  simp only [DeletePath, removeAll, hvict, hkeep, List.any_nil,
    Bool.false_eq_true, if_false]
  rfl

/-- C10.  Deleting an absent path succeeds: when nothing in the
destination equals `name` or lies under it, `DeletePath` returns success
with no error and changes nothing; and after any successful `DeletePath`,
running it again on the same path also returns success with no error and
changes nothing — executing a delete action is idempotent at the public
interface. -/
theorem deletePath_absent_succeeds (paths failures : PathSet)
    (name : String) :
    ((∀ p ∈ paths, underPath name p = false) →
      DeletePath paths failures name = (paths, true, false))
    ∧ ((DeletePath paths failures name).2.2 = false →
      DeletePath (DeletePath paths failures name).1 failures name =
        ((DeletePath paths failures name).1, true, false)) := by
  constructor
  · exact deletePath_of_absent paths failures name
  · intro hok
    by_cases hfail :
        (paths.filter (fun p => underPath name p)).any
          (fun p => failures.contains p) = true
    · exfalso
      have hdel : DeletePath paths failures name = (paths, false, true) := by
        simp only [DeletePath, removeAll]
        rw [if_pos hfail]
        rfl
      rw [hdel] at hok
      simp at hok
    · have h1 : DeletePath paths failures name =
          (paths.filter (fun p => !underPath name p), true, false) := by
        simp only [DeletePath, removeAll]
        rw [if_neg hfail]
        rfl
      rw [h1]
      refine deletePath_of_absent _ _ _ fun p hp => ?_
      have hmem := List.mem_filter.mp hp
      simpa using hmem.2

/-- Witness for C10: deleting a path that does not exist in a one-file
tree, then deleting it again. -/
theorem deletePath_absent_succeeds_witness :
    DeletePath ["a/b.txt"] [] "missing" = (["a/b.txt"], true, false)
    ∧ DeletePath (DeletePath ["a/b.txt"] [] "missing").1 [] "missing" =
        ((DeletePath ["a/b.txt"] [] "missing").1, true, false) :=
  ⟨(deletePath_absent_succeeds ["a/b.txt"] [] "missing").1 (by decide),
   (deletePath_absent_succeeds ["a/b.txt"] [] "missing").2 (by decide)⟩
end Mimic
